import Mathlib

/-!
Verification development for the loggy repository: a shallow embedding of
the analytics-capture pipeline (Go proxy under loggy-proxy/ and the
JavaScript extension/Node sides) together with proofs about the claims of
the specification.

Modelling conventions:
* Strings are Lean `String`s; character-level work uses `String.data`.
* JSON values are the inductive `JValue`; `json.Unmarshal` /
  `JSON.parse` are modelled by supplying the decoded `JValue` directly.
  Go `map[string]interface{}` objects are association lists (the JSON
  objects handled here have distinct keys, so lookup order is faithful).
* Go `time.Now()` and `generateID()` are impure; they enter the
  embedding as explicit parameters (`now`, `genID`).
* `net/url.Parse` (Go) and `new URL` (JS) are modelled by `parseURL`
  for absolute `scheme://host/path?query` URLs, the only shape the
  proxy constructs; URLs without `://` yield `none`, which makes
  `Source.Matches` and `looksLikeAnalyticsEndpoint` return false just
  as the originals do on such inputs.
-/

namespace Loggy

/-- Split a character list at every occurrence of `sep`
(the semantics of Go `strings.Split` and JS `String.split` for a
one-character separator: `splitCh sep [] = [[]]`). -/
def splitCh (sep : Char) : List Char → List (List Char)
  | [] => [[]]
  | c :: cs =>
    let r := splitCh sep cs
    if c = sep then [] :: r
    else
      match r with
      | [] => [[c]]
      | h :: t => (c :: h) :: t

/-- Join character lists with the separator `sep`
(the semantics of Go `strings.Join` / JS `Array.join`). -/
def joinSep (sep : Char) : List (List Char) → List Char
  | [] => []
  | [x] => x
  | x :: y :: t => x ++ sep :: joinSep sep (y :: t)

/-- The last `n` elements of a list (Go `parts[len(parts)-n:]`,
JS `parts.slice(-n)`). -/
def takeRightN (n : Nat) (l : List α) : List α := l.drop (l.length - n)

/-- Does `s` start with `p`? (character-level helper). -/
def startsWithL : List Char → List Char → Bool
  | _, [] => true
  | [], _ :: _ => false
  | c :: cs, d :: ds => c = d && startsWithL cs ds

/-- Does `s` contain `sub` as a contiguous substring?
(Go `strings.Contains`, JS `String.includes`). -/
def hasSubL (sub : List Char) : List Char → Bool
  | [] => sub.isEmpty
  | c :: cs => startsWithL (c :: cs) sub || hasSubL sub cs

/-- String-level wrapper for `hasSubL`. -/
def containsSub (s sub : String) : Bool := hasSubL sub.data s.data

/-- Lower-case a string (Go `strings.ToLower`, JS `toLowerCase`). -/
def lowerS (s : String) : String := String.mk (s.data.map Char.toLower)

/-- Membership of a string in a list of strings, written as the explicit
loop the sources use (Go `for … if host == skip`, JS `includes`). -/
def memberStr : List String → String → Bool
  | [], _ => false
  | x :: xs, s => if x = s then true else memberStr xs s

/-- Decoded JSON value: the recursive variant produced by Go
`json.Unmarshal` into `interface{}` and by `JSON.parse`.
Numbers are modelled as integers (the payloads the claims concern carry
integral numbers). -/
inductive JValue where
  | null
  | bool (b : Bool)
  | num (n : Int)
  | str (s : String)
  | arr (xs : List JValue)
  | obj (fields : List (String × JValue))

/-- Association-list lookup, the model of `m[key]` on a Go map /
property access on a JS object (`none` = absent / Go `ok == false` /
JS `undefined`). -/
def alookup {α : Type} : List (String × α) → String → Option α
  | [], _ => none
  | (k, v) :: t, key => if k = key then some v else alookup t key

/-- Is this JSON value the JSON null (Go `interface{}` nil)? -/
def isNullJ : JValue → Bool
  | JValue.null => true
  | _ => false

/-! ### Glob matching (Go `path.Match` as used by `matchGlob`)

`path.Match`'s `scanChunk` strips runs of consecutive `*`s, and a `*`
matches any run of non-`/` characters.  The patterns in this repository
use only literals and `*`, which is exactly what `GlobTok` covers. -/

inductive GlobTok where
  | star
  | lit (c : Char)

/-- Tokenize a pattern, collapsing consecutive `*`s as `scanChunk` does. -/
def tokenizeGlob : List Char → List GlobTok
  | [] => []
  | c :: cs =>
    let ts := tokenizeGlob cs
    if c = '*' then
      match ts with
      | GlobTok.star :: _ => ts
      | _ => GlobTok.star :: ts
    else GlobTok.lit c :: ts

/-- Star expansion: try the continuation `k` on every suffix of the
name reachable by consuming non-`/` characters. -/
def starLoop (k : List Char → Bool) : List Char → Bool
  | [] => k []
  | d :: ds => k (d :: ds) || (!(d = '/') && starLoop k ds)

/-- Core matcher: `star` matches any (possibly empty) run of non-`/`
characters, literals match themselves, and the whole name must be
consumed - the semantics of Go `path.Match` on star/literal patterns. -/
def globMatch : List GlobTok → List Char → Bool
  | [], s => s.isEmpty
  | GlobTok.lit c :: ts, s =>
    match s with
    | [] => false
    | d :: ds => c = d && globMatch ts ds
  | GlobTok.star :: ts, s => starLoop (globMatch ts) s

/-- Go `path.Match(pattern, name)` (no error case arises for the
patterns in this repository). -/
def pathMatch (pattern name : String) : Bool :=
  globMatch (tokenizeGlob pattern.data) name.data

/-- Go `strings.ReplaceAll(pattern, "**", "*")`: the left-to-right,
non-overlapping replacement of each `**` by `*`, modelled for this
specific pattern/replacement pair. -/
def replaceDoubleStar : List Char → List Char
  | [] => []
  | [c] => [c]
  | c :: d :: cs =>
    if c = '*' ∧ d = '*' then '*' :: replaceDoubleStar cs
    else c :: replaceDoubleStar (d :: cs)

/-- `matchGlob` from loggy-proxy/internal/config/sources.go: try
`path.Match` directly; if the pattern contains `**`, replace `**` by `*`
and try again.  (Since `path.Match` already collapses star runs, the
second attempt never matches more than the first.) -/
def matchGlob (str pattern : String) : Bool :=
  let matched := pathMatch pattern str
  if matched then true
  else if containsSub pattern "**" then
    pathMatch (String.mk (replaceDoubleStar pattern.data)) str
  else false

/-! ### URL model -/

/-- Parsed absolute URL; `host` may carry a `:port`. -/
structure URLParts where
  scheme : String
  host : String
  path : String
  rawQuery : String

/-- Break a character list at the first occurrence of `sub`, returning
the part before it and the part after it. -/
def breakSub? (sub : List Char) : List Char → Option (List Char × List Char)
  | [] => if sub.isEmpty then some ([], []) else none
  | c :: cs =>
    if startsWithL (c :: cs) sub then some ([], (c :: cs).drop sub.length)
    else
      match breakSub? sub cs with
      | some (a, b) => some (c :: a, b)
      | none => none

/-- Model of Go `url.Parse` / JS `new URL` for the absolute
`scheme://host/path?query` URLs this repository constructs. -/
def parseURL (s : String) : Option URLParts :=
  match breakSub? "://".data s.data with
  | none => none
  | some (sch, rest) =>
    let hostCs := rest.takeWhile (fun c => !(c = '/') && !(c = '?'))
    let afterHost := rest.drop hostCs.length
    let pathCs := afterHost.takeWhile (fun c => !(c = '?'))
    let queryCs := (afterHost.drop pathCs.length).drop 1
    some ⟨String.mk sch, String.mk hostCs, String.mk pathCs, String.mk queryCs⟩

/-- `u.Hostname()` (Go) / `url.hostname` (JS): the host with any
`:port` removed. -/
def URLParts.hostnameOf (u : URLParts) : String :=
  String.mk ((splitCh ':' u.host.data).headD [])

/-! ### Go source registry (loggy-proxy/internal/config/sources.go) -/

/-- `config.Source`.  `icon`/`color` are the extra fields of the
variant of sources.go shipped in the build (src/unnamed/part_000); they
do not affect matching. -/
structure Source where
  id : String
  name : String
  icon : String := ""
  color : String := ""
  enabled : Bool
  domain : String
  urlPattern : String := ""
  fieldMappings : List (String × String) := []
  eventNamePath : String := ""
  batchPath : String := ""
deriving DecidableEq

/-- `extractBaseDomain` (Go): lower-case, split on `.`, and keep the
last two labels when there are at least two. -/
def extractBaseDomain (host : String) : String :=
  let host := lowerS host
  let parts := splitCh '.' host.data
  if parts.length ≥ 2 then String.mk (joinSep '.' (takeRightN 2 parts))
  else host

/-- `Source.Matches` (Go): enabled, URL parses, base domain of the URL
host equals the (lower-cased) source domain, and the path matches the
glob pattern when one is set. -/
def Source.Matches (s : Source) (urlStr : String) : Bool :=
  if !s.enabled then false
  else
    match parseURL urlStr with
    | none => false
    | some u =>
      let urlDomain := extractBaseDomain u.hostnameOf
      let sourceDomain := lowerS s.domain
      if !(urlDomain = sourceDomain) then false
      else if !(s.urlPattern = "") then matchGlob u.path s.urlPattern
      else true

def googleAnalyticsSource : Source :=
  { id := "google-analytics", name := "Google Analytics", enabled := true,
    domain := "google-analytics.com", urlPattern := "/*/collect*",
    eventNamePath := "en" }

def googleAnalyticsMpSource : Source :=
  { id := "google-analytics-mp", name := "Google Analytics (MP)", enabled := true,
    domain := "google-analytics.com", urlPattern := "/mp/collect*",
    eventNamePath := "events[0].name", batchPath := "events" }

def segmentSource : Source :=
  { id := "segment", name := "Segment", enabled := true,
    domain := "api.segment.io", urlPattern := "/v1/*", batchPath := "batch" }

def amplitudeSource : Source :=
  { id := "amplitude", name := "Amplitude", enabled := true,
    domain := "api.amplitude.com", batchPath := "events" }

def mixpanelSource : Source :=
  { id := "mixpanel", name := "Mixpanel", enabled := true,
    domain := "api.mixpanel.com", eventNamePath := "event" }

def redditPixelSource : Source :=
  { id := "reddit-pixel", name := "Reddit Pixel", enabled := true,
    domain := "alb.reddit.com", urlPattern := "/rp.gif*",
    eventNamePath := "event" }

def heapSource : Source :=
  { id := "heap", name := "Heap Analytics", enabled := true,
    domain := "heapanalytics.com", eventNamePath := "a", batchPath := "b" }

def posthogSource : Source :=
  { id := "posthog", name := "PostHog", enabled := true,
    domain := "app.posthog.com", batchPath := "batch" }

def rudderstackSource : Source :=
  { id := "rudderstack", name := "RudderStack", enabled := true,
    domain := "rudderstack.com", batchPath := "batch" }

/-- `GetDefaultSources` (Go): the seed registry. -/
def GetDefaultSources : List Source :=
  [googleAnalyticsSource, googleAnalyticsMpSource, segmentSource,
   amplitudeSource, mixpanelSource, redditPixelSource, heapSource,
   posthogSource, rudderstackSource]

/-- `findMatchingSource` (loggy-proxy/internal/proxy/server.go): first
source in registry order that matches. -/
def findMatchingSource (sources : List Source) (url : String) : Option Source :=
  sources.find? (fun s => s.Matches url)

/-! ### Go payload parser (loggy-proxy/internal/proxy/parser.go) -/

/-- `pathPart`: one step of a dotted/indexed JSON path; `index = -1`
means "no array index", as in the Go struct. -/
structure PathPart where
  key : String
  index : Int
deriving DecidableEq

/-- `parseIndex` (Go): accumulate decimal digits, stopping at the first
non-digit.  The Go function returns a nil error in every case, with the
accumulator holding the digits consumed so far. -/
def parseIndexVal : List Char → Nat → Nat
  | [], acc => acc
  | c :: cs, acc =>
    if c.isDigit then parseIndexVal cs (acc * 10 + (c.toNat - 48))
    else acc

/-- `strings.Trim(s, "[]")`: remove leading and trailing `[` / `]`. -/
def trimSquare (l : List Char) : List Char :=
  let cut := fun (c : Char) => c = '[' || c = ']'
  ((l.dropWhile (fun c => cut c)).reverse.dropWhile (fun c => cut c)).reverse

/-- `parseJSONPath` (Go): split on dots; a segment containing `[`
splits into key and bracketed index.  Because Go's `parseIndex` always
reports a nil error, its fallback branch (whole segment as key,
index -1) is unreachable and therefore not modelled. -/
def parseJSONPath (path : String) : List PathPart :=
  (splitCh '.' path.data).map fun seg =>
    match seg.findIdx? (fun c => c = '[') with
    | some i =>
      let key := seg.take i
      let indexStr := trimSquare (seg.drop i)
      { key := String.mk key, index := Int.ofNat (parseIndexVal indexStr 0) }
    | none => { key := String.mk seg, index := -1 }

/-- One step of `getNestedValue`'s loop (Go): look the key up in a map,
optionally index into an array; any miss returns nil (`none`). -/
def stepPart : JValue → PathPart → Option JValue
  | JValue.obj fields, p =>
    match alookup fields p.key with
    | none => none
    | some val =>
      if p.index ≥ 0 then
        match val with
        | JValue.arr xs => xs.get? p.index.toNat
        | _ => none
      else some val
  | JValue.arr xs, p =>
    if p.index ≥ 0 then xs.get? p.index.toNat else none
  | _, _ => none

/-- The loop of `getNestedValue` (Go), with the early `return nil`
modelled as `Option` short-circuiting. -/
def resolveParts : JValue → List PathPart → Option JValue
  | cur, [] => some cur
  | cur, p :: ps =>
    match stepPart cur p with
    | none => none
    | some nxt => resolveParts nxt ps

/-- `getNestedValue` (Go): resolve a dotted/indexed path against a map. -/
def getNestedValue (data : List (String × JValue)) (path : String) : Option JValue :=
  resolveParts (JValue.obj data) (parseJSONPath path)

/-- The `batchFields` literal of `extractEvents` (Go). -/
def batchFields : List String := ["batch", "events", "data", "items", "hits", "b"]

/-- The field loop of `extractEvents` (Go): first field present whose
value is an array; fields absent or bound to non-arrays are skipped. -/
def findBatchField : List String → List (String × JValue) → List JValue
  | [], _ => []
  | f :: fs, m =>
    match alookup m f with
    | some (JValue.arr xs) => xs
    | _ => findBatchField fs m

/-- `extractEvents` (Go): batch path first (array hit returns, non-array
falls through), then the well-known batch fields; non-object payloads
yield no events. -/
def extractEvents (payload : JValue) (source : Source) : List JValue :=
  match payload with
  | JValue.obj payloadMap =>
    let fromBatchPath : Option (List JValue) :=
      if !(source.batchPath = "") then
        match getNestedValue payloadMap source.batchPath with
        | some (JValue.arr xs) => some xs
        | _ => none
      else none
    match fromBatchPath with
    | some xs => xs
    | none => findBatchField batchFields payloadMap
  | _ => []

/-- The `nameFields` literal of `extractEventName` (Go). -/
def nameFields : List String :=
  ["event", "eventName", "event_name", "name", "action", "en", "e", "a", "type", "t"]

/-- First field bound to a non-empty string (the probe loops of
`extractEventName` / `extractUserIDs` in Go). -/
def firstNonEmptyString : List String → List (String × JValue) → Option String
  | [], _ => none
  | f :: fs, m =>
    match alookup m f with
    | some (JValue.str s) => if !(s = "") then some s else firstNonEmptyString fs m
    | _ => firstNonEmptyString fs m

/-- `extractEventName` (Go): source-specific path first (any string hit
returns, even empty; a non-string hit falls through), then the common
name fields, else "unknown". -/
def extractEventName (event : JValue) (source : Source) : String :=
  match event with
  | JValue.obj eventMap =>
    let fromPath : Option String :=
      if !(source.eventNamePath = "") then
        match getNestedValue eventMap source.eventNamePath with
        | some (JValue.str s) => some s
        | _ => none
      else none
    match fromPath with
    | some s => s
    | none => (firstNonEmptyString nameFields eventMap).getD "unknown"
  | _ => "unknown"

def userFields : List String := ["userId", "user_id", "uid"]

def anonFields : List String := ["anonymousId", "anonymous_id", "anonId"]

/-- `extractUserIDs` (Go): first non-empty string among the user-id
fields and among the anonymous-id fields. -/
def extractUserIDs (event : JValue) : String × String :=
  match event with
  | JValue.obj m =>
    ((firstNonEmptyString userFields m).getD "",
     (firstNonEmptyString anonFields m).getD "")
  | _ => ("", "")

def propFields : List String := ["properties", "params", "data", "traits", "p"]

/-- First field bound to an object. -/
def firstMapField : List String → List (String × JValue) → Option (List (String × JValue))
  | [], _ => none
  | f :: fs, m =>
    match alookup m f with
    | some (JValue.obj props) => some props
    | _ => firstMapField fs m

/-- `extractEventData` (Go): first properties-like sub-object, else the
whole event map; nil for non-objects. -/
def extractEventData (event : JValue) : Option (List (String × JValue)) :=
  match event with
  | JValue.obj m =>
    match firstMapField propFields m with
    | some props => some props
    | none => some m
  | _ => none

/-- `extractContext` (Go): the `context` field when it is an object. -/
def extractContext (event : JValue) : Option (List (String × JValue)) :=
  match event with
  | JValue.obj m =>
    match alookup m "context" with
    | some (JValue.obj ctx) => some ctx
    | _ => none
  | _ => none

/-- `EventMetadata` (Go). -/
structure EventMetadata where
  url : String
  capturedAt : String

/-- `CapturedEvent` (Go struct in server.go).  `typ` stands for the Go
field `Type`. -/
structure CapturedEvent where
  id : String
  timestamp : String
  event : String
  properties : Option (List (String × JValue))
  context : Option (List (String × JValue))
  userId : String
  anonymousId : String
  typ : String
  source : String
  sourceName : String
  sourceIcon : String
  sourceColor : String
  rawPayload : JValue
  metadata : EventMetadata

/-- Assemble one `CapturedEvent` as the loop body of `parsePayload`
does.  `genID i` models the i-th call to `generateID()`. -/
def mkCaptured (genID : Nat → String) (i : Nat) (timestamp : String)
    (source : Source) (requestURL : String) (rawEvent : JValue) : CapturedEvent :=
  { id := genID i
    timestamp := timestamp
    event := extractEventName rawEvent source
    properties := extractEventData rawEvent
    context := extractContext rawEvent
    userId := (extractUserIDs rawEvent).1
    anonymousId := (extractUserIDs rawEvent).2
    typ := "track"
    source := source.id
    sourceName := source.name
    sourceIcon := source.icon
    sourceColor := source.color
    rawPayload := rawEvent
    metadata := ⟨requestURL, timestamp⟩ }

/-- `parsePayload` (Go), after JSON decoding: one event per extracted
raw event, and a single whole-payload event when nothing was extracted
and the payload is not nil. -/
def parsePayload (payload : JValue) (source : Source) (requestURL : String)
    (now : String) (genID : Nat → String) : List CapturedEvent :=
  let timestamp := now
  let rawEvents := extractEvents payload source
  let events := rawEvents.enum.map fun p =>
    mkCaptured genID p.1 timestamp source requestURL p.2
  if events.isEmpty && !(isNullJ payload) then
    [mkCaptured genID 0 timestamp source requestURL payload]
  else events

/-! ### Go proxy server state (loggy-proxy/internal/proxy/server.go) -/

/-- `MaxEvents`. -/
def MaxEvents : Nat := 1000

/-- The append/evict step of `handleRequest`: append, and drop the
oldest element when the buffer exceeds `MaxEvents`. -/
def appendEvent (buf : List CapturedEvent) (e : CapturedEvent) : List CapturedEvent :=
  let b := buf ++ [e]
  if b.length > MaxEvents then b.drop 1 else b

/-- The `skipDomains` literal of `trackUnmatchedDomain`. -/
def skipDomains : List String :=
  ["google.com", "gstatic.com", "googleapis.com", "cloudflare.com"]

/-- The host truncation at the top of `trackUnmatchedDomain`: keep the
last two dot-separated labels (no lower-casing here). -/
def collapseHost (host : String) : String :=
  let parts := splitCh '.' host.data
  if parts.length ≥ 2 then String.mk (joinSep '.' (takeRightN 2 parts))
  else host

/-- Increment the count for a key in the unmatched-domain map
(`unmatchedDomains[host]++`: insert with 1 when absent). -/
def bumpCount : List (String × Nat) → String → List (String × Nat)
  | [], k => [(k, 1)]
  | (k', v) :: t, k =>
    if k' = k then (k', v + 1) :: t else (k', v) :: bumpCount t k

/-- `trackUnmatchedDomain` (Go): truncate the host to its last two
labels, skip the well-known non-analytics domains, and bump the count.
Note there is no analytics-path heuristic here: the function does not
even receive the URL path or the payload. -/
def trackUnmatchedDomain (host : String) (m : List (String × Nat)) : List (String × Nat) :=
  let h := collapseHost host
  if memberStr skipDomains h then m else bumpCount m h

/-! ### JS SourceConfig (src/config/source-config.js, and the identical
copy in the Node config manager) -/

/-- The `specialTLDs` literal. -/
def specialTLDs : List String := ["co.uk", "com.au", "co.nz", "co.jp", "com.br"]

/-- The IPv4 test regexp of the JS code: one or more digits in each of
four dot-separated groups, anchored at both ends. -/
def isIPv4 (h : String) : Bool :=
  match splitCh '.' h.data with
  | [a, b, c, d] =>
    !a.isEmpty && !b.isEmpty && !c.isEmpty && !d.isEmpty &&
    (a ++ b ++ c ++ d).all Char.isDigit
  | _ => false

/-- `SourceConfig.extractBaseDomain` (JS): strip a `:port`, keep IPv4
literals, otherwise last three labels for the special multi-label TLDs,
last two labels when there are at least two, else the host unchanged. -/
def SourceConfig_extractBaseDomain (hostname : String) : String :=
  if hostname = "" then ""
  else
    let hostname := String.mk ((splitCh ':' hostname.data).headD [])
    if isIPv4 hostname then hostname
    else
      let parts := splitCh '.' (lowerS hostname).data
      let lastTwo := String.mk (joinSep '.' (takeRightN 2 parts))
      if memberStr specialTLDs lastTwo && parts.length > 2 then
        String.mk (joinSep '.' (takeRightN 3 parts))
      else if parts.length ≥ 2 then lastTwo
      else hostname

/-- `SourceConfig.extractBaseDomainFromUrl` (JS): parse the URL, then
extract the base domain of its hostname; unparsable URLs yield "". -/
def SourceConfig_extractBaseDomainFromUrl (url : String) : String :=
  match parseURL url with
  | none => ""
  | some u => SourceConfig_extractBaseDomain u.hostnameOf

/-- The base-domain function exactly as the specification words it
(spec section 4.3): last three labels under a known multi-label public
suffix, IPv4 literals unchanged, otherwise the last two labels.  This
definition follows the spec text and is compared against the two
implementations. -/
def claimBaseDomain (h : String) : String :=
  let parts := splitCh '.' h.data
  let lastTwo := String.mk (joinSep '.' (takeRightN 2 parts))
  if memberStr specialTLDs lastTwo && parts.length > 2 then
    String.mk (joinSep '.' (takeRightN 3 parts))
  else if isIPv4 h then h
  else lastTwo

/-! ### Node config manager
(src/unnamed/part_004: config-manager-node.js) -/

/-- The `ANALYTICS_ENDPOINT_PATTERNS` literal. -/
def ANALYTICS_ENDPOINT_PATTERNS : List String :=
  ["/analytics", "/events", "/track", "/collect", "/log", "/beacon",
   "/v1/batch", "/v1/track", "/evs", "/telemetry", "/metrics"]

/-- `looksLikeAnalyticsEndpoint` (JS): the lower-cased pathname contains
one of the analytics-heuristic substrings; unparsable URLs yield false. -/
def looksLikeAnalyticsEndpoint (url : String) : Bool :=
  match parseURL url with
  | none => false
  | some u =>
    let pathLower := lowerS u.path
    ANALYTICS_ENDPOINT_PATTERNS.any fun p => containsSub pathLower p

/-- The fields of a Node `SourceConfig` that the tracking logic reads. -/
structure NodeSource where
  id : String
  name : String
  enabled : Bool
  domain : String

/-- An unmatched-domain entry of the Node config manager. -/
structure UnmatchedEntry where
  domain : String
  url : String
  payload : String
  count : Nat
  firstSeen : Nat
  lastSeen : Nat

/-- The mutable state of `ConfigManagerNode` that tracking touches:
the sources map (insertion-ordered) and the unmatched-domains map. -/
structure NodeState where
  sources : List NodeSource
  unmatched : List (String × UnmatchedEntry)

/-- `findSourceByDomain` (JS): first source whose lower-cased domain
equals the normalized domain (enabled is not consulted here). -/
def findSourceByDomain (st : NodeState) (domain : String) : Option NodeSource :=
  let normalizedDomain := lowerS domain
  st.sources.find? fun s => lowerS s.domain = normalizedDomain

/-- `Map.set` on an association list: replace in place, else append. -/
def setEntry {α : Type} : List (String × α) → String → α → List (String × α)
  | [], k, e => [(k, e)]
  | (k', v) :: t, k, e =>
    if k' = k then (k, e) :: t else (k', v) :: setEntry t k e

/-- `trackUnmatchedRequest` (JS, Node config manager): only URLs passing
the analytics heuristic are considered; the entry is keyed by base
domain, skipped when the domain is empty or some source has it, and
upserted with count incremented, last-seen refreshed and the payload
overwritten when non-empty.  `Date.now()` enters as `now`. -/
def trackUnmatchedRequest (st : NodeState) (url payload : String) (now : Nat) : NodeState :=
  if !(looksLikeAnalyticsEndpoint url) then st
  else
    let domain := SourceConfig_extractBaseDomainFromUrl url
    if domain = "" || (findSourceByDomain st domain).isSome then st
    else
      match alookup st.unmatched domain with
      | some e =>
        let e2 : UnmatchedEntry :=
          { e with count := e.count + 1, lastSeen := now,
                   payload := if !(payload = "") then payload else e.payload }
        { st with unmatched := setEntry st.unmatched domain e2 }
      | none =>
        { st with unmatched := setEntry st.unmatched domain ⟨domain, url, payload, 1, now, now⟩ }

/-- Count stored for a domain in the unmatched map (0 when absent). -/
def countOf (st : NodeState) (domain : String) : Nat :=
  match alookup st.unmatched domain with
  | some e => e.count
  | none => 0

/-! ### JS AnalyticsParser (src/parsers.js) -/

/-- The `EVENT_ARRAY_FIELDS` literal of the JS parser. -/
def EVENT_ARRAY_FIELDS : List String :=
  ["batch", "events", "data", "items", "records", "messages"]

/-- The field loop of `findEventArray` (JS): first listed field bound to
an array. -/
def findArrField : List String → JValue → Option (List JValue)
  | [], _ => none
  | f :: fs, d =>
    match d with
    | JValue.obj m =>
      match alookup m f with
      | some (JValue.arr xs) => some xs
      | _ => findArrField fs d
    | _ => findArrField fs d

/-- `AnalyticsParser.findEventArray` (JS): probe the event-array fields,
then fall back to the payload itself when it is an array. -/
def findEventArray (d : JValue) : Option (List JValue) :=
  match findArrField EVENT_ARRAY_FIELDS d with
  | some xs => some xs
  | none =>
    match d with
    | JValue.arr xs => some xs
    | _ => none

/-- Split at any of the separator characters (the JS path regexp
splitting on `.`, `[` and `]`). -/
def splitAnyCh (seps : List Char) : List Char → List (List Char)
  | [] => [[]]
  | c :: cs =>
    let r := splitAnyCh seps cs
    if seps.contains c then [] :: r
    else
      match r with
      | [] => [[c]]
      | h :: t => (c :: h) :: t

/-- Path segmentation of `AnalyticsParser.getNestedValue` (JS): split on
dots and brackets and drop empty segments. -/
def jsSplitPath (path : String) : List String :=
  ((splitAnyCh ['.', '[', ']'] path.data).map String.mk).filter fun s => !(s = "")

/-- JS `parseInt(part, 10)` restricted to the forms arising here: an
optional sign followed by a digit run (further characters ignored);
no leading digit means NaN (`none`). -/
def jsParseInt : List Char → Option Int
  | [] => none
  | '-' :: c :: cs =>
    if c.isDigit then some (-(Int.ofNat (parseIndexVal (c :: cs) 0))) else none
  | c :: cs =>
    if c.isDigit then some (Int.ofNat (parseIndexVal (c :: cs) 0)) else none

/-- One step of the JS resolver loop: null and primitives stop with
undefined; arrays are indexed when the segment parses as an integer
(other array properties are modelled as undefined); objects are looked
up by the literal segment. -/
def jsStep (cur : JValue) (part : String) : Option JValue :=
  match cur with
  | JValue.obj m => alookup m part
  | JValue.arr xs =>
    match jsParseInt part.data with
    | some i => if i ≥ 0 then xs.get? i.toNat else none
    | none => none
  | _ => none

/-- The segment loop of `AnalyticsParser.getNestedValue` (JS). -/
def jsResolve : JValue → List String → Option JValue
  | cur, [] => some cur
  | cur, p :: ps =>
    match jsStep cur p with
    | none => none
    | some nxt => jsResolve nxt ps

/-- Falsiness of a JS value (`!data`). -/
def jsFalsy : JValue → Bool
  | JValue.null => true
  | JValue.bool b => !b
  | JValue.num n => n = 0
  | JValue.str s => s = ""
  | _ => false

/-- `AnalyticsParser.getNestedValue` (JS): guard on falsy path or data,
then resolve the segments. -/
def AnalyticsParser_getNestedValue (data : JValue) (path : String) : Option JValue :=
  if path = "" || jsFalsy data then none
  else jsResolve data (jsSplitPath path)

/-! ### Timestamp normalization (src/parsers.js `normalizeTimestamp`)
and a model of JS `Date.prototype.toISOString` -/

/-- Zero-padded decimal rendering. -/
def padNat (width n : Nat) : String :=
  let s := toString n
  if s.length < width then String.mk (List.replicate (width - s.length) '0') ++ s
  else s

/-- Proleptic-Gregorian civil date from days since 1970-01-01
(the standard civil-from-days computation; valid for all integer day
counts). -/
def civilFromDays (day : Int) : Int × Nat × Nat :=
  let z := day + 719468
  let era : Int := Int.tdiv (if z ≥ 0 then z else z - 146096) 146097
  let doe : Nat := (z - era * 146097).toNat
  let yoe : Nat := (doe - doe / 1460 + doe / 36524 - doe / 146096) / 365
  let y : Int := (yoe : Int) + era * 400
  let doy : Nat := doe - (365 * yoe + yoe / 4 - yoe / 100)
  let mp : Nat := (5 * doy + 2) / 153
  let d : Nat := doy - (153 * mp + 2) / 5 + 1
  let m : Nat := if mp < 10 then mp + 3 else mp - 9
  (if m ≤ 2 then y + 1 else y, m, d)

/-- Model of JS `new Date(ms).toISOString()` for the years 0-9999
(the claims only exercise this range): UTC Gregorian rendering with
millisecond precision and a trailing Z. -/
def toISOString (ms : Int) : String :=
  let day : Int := Int.fdiv ms 86400000
  let msod : Nat := (ms - day * 86400000).toNat
  let ymd := civilFromDays day
  let hh : Nat := msod / 3600000
  let mm : Nat := msod % 3600000 / 60000
  let ss : Nat := msod % 60000 / 1000
  let mss : Nat := msod % 1000
  padNat 4 ymd.1.toNat ++ "-" ++ padNat 2 ymd.2.1 ++ "-" ++ padNat 2 ymd.2.2 ++
    "T" ++ padNat 2 hh ++ ":" ++ padNat 2 mm ++ ":" ++ padNat 2 ss ++ "." ++
    padNat 3 mss ++ "Z"

/-- A timestamp input to `normalizeTimestamp`: the string and number
cases of the JS function (other JS types take the generic
`new Date(x)` branch, which `parseDate` models below). -/
inductive TSValue where
  | str (s : String)
  | num (n : Int)

/-- `AnalyticsParser.normalizeTimestamp` (JS).  `nowISO` models
`new Date().toISOString()`; `parseDate s` models
`new Date(s).toISOString()` (with its catch returning now) for strings
that are not already ISO-like.  Falsy inputs (empty string, zero)
return now; numbers below 10^10 are seconds and are scaled to
milliseconds, larger ones are milliseconds already. -/
def normalizeTimestamp (parseDate : String → String) (nowISO : String) :
    TSValue → String
  | TSValue.str s =>
    if s = "" then nowISO
    else if containsSub s "T" then s
    else parseDate s
  | TSValue.num n =>
    if n = 0 then nowISO
    else toISOString (if n < 10000000000 then n * 1000 else n)

/-! ### Native-messaging host (src/unnamed/part_001: handlers.go) -/

/-- `Message`. -/
structure Message where
  action : String

/-- `Response`. -/
structure Response where
  success : Bool
  error : String := ""
  message : String := ""
  running : Bool := false
  pid : Int := 0
  autoLaunched : Bool := false

/-- `handleMessage` (Go): dispatch on the action.  `handlePing` is pure
and inlined; the start/stop/status handlers perform process and
filesystem I/O and therefore enter the embedding as the parameters
`startR`, `stopR`, `statusR` (their results).  The function is total
over all action strings. -/
def handleMessage (startR stopR statusR : Response) (msg : Message) : Response :=
  if msg.action = "ping" then { success := true }
  else if msg.action = "startProxy" then startR
  else if msg.action = "stopProxy" then stopR
  else if msg.action = "getStatus" then statusR
  else { success := false, error := "Unknown action: " ++ msg.action }

/-! ### Concrete scenario data -/

/-- The Segment batch URL of the end-to-end scenario. -/
def segURL : String := "https://api.segment.io/v1/batch"

/-- The decoded Segment batch payload of the end-to-end scenario. -/
def segPayload : JValue :=
  JValue.obj
    [("batch", JValue.arr
        [JValue.obj [("event", JValue.str "Viewed"), ("userId", JValue.str "u1")],
         JValue.obj [("event", JValue.str "Clicked"), ("userId", JValue.str "u1")]]),
     ("sentAt", JValue.str "2024-01-01T00:00:00Z")]

/-- The map of the path-resolver scenario. -/
def resolverData : List (String × JValue) :=
  [("events", JValue.arr [JValue.obj [("name", JValue.str "x")]])]

/-- A concrete captured event, used to exercise the ring buffer. -/
def sampleEvent : CapturedEvent :=
  { id := "id0", timestamp := "t0", event := "ev", properties := none,
    context := none, userId := "", anonymousId := "", typ := "track",
    source := "s", sourceName := "S", sourceIcon := "", sourceColor := "",
    rawPayload := JValue.null, metadata := ⟨"u", "t0"⟩ }

/-! ## Lemmas -/

theorem appendEvent_length_le (buf : List CapturedEvent) (e : CapturedEvent)
    (h : buf.length ≤ MaxEvents) : (appendEvent buf e).length ≤ MaxEvents := by
  unfold appendEvent
  by_cases hb : (buf ++ [e]).length > MaxEvents
  · simp only [hb, if_pos, List.length_drop]
    simp only [List.length_append, List.length_singleton] at hb ⊢
    omega
  · simp only [hb, if_neg, not_false_iff]
    simp only [List.length_append, List.length_singleton] at hb ⊢
    omega

theorem foldl_appendEvent_le (es : List CapturedEvent) :
    ∀ buf : List CapturedEvent, buf.length ≤ MaxEvents →
      (es.foldl appendEvent buf).length ≤ MaxEvents := by
  induction es with
  | nil => intro buf h; exact h
  | cons e es ih =>
    intro buf h
    exact ih (appendEvent buf e) (appendEvent_length_le buf e h)

theorem resolveParts_append_none :
    ∀ (ps1 : List PathPart) (v w : JValue) (p : PathPart) (ps2 : List PathPart),
      resolveParts v ps1 = some w → stepPart w p = none →
      resolveParts v (ps1 ++ p :: ps2) = none := by
  intro ps1
  induction ps1 with
  | nil =>
    intro v w p ps2 hres hstep
    have hv : v = w := by
      simpa [resolveParts] using hres
    subst hv
    simp [resolveParts, hstep]
  | cons q qs ih =>
    intro v w p ps2 hres hstep
    cases hq : stepPart v q with
    | none => rw [resolveParts, hq] at hres; exact absurd hres (by simp)
    | some nxt =>
      rw [resolveParts, hq] at hres
      rw [List.cons_append, resolveParts, hq]
      exact ih nxt w p ps2 hres hstep

theorem jsResolve_append_none :
    ∀ (ps1 : List String) (v w : JValue) (p : String) (ps2 : List String),
      jsResolve v ps1 = some w → jsStep w p = none →
      jsResolve v (ps1 ++ p :: ps2) = none := by
  intro ps1
  induction ps1 with
  | nil =>
    intro v w p ps2 hres hstep
    have hv : v = w := by
      simpa [jsResolve] using hres
    subst hv
    simp [jsResolve, hstep]
  | cons q qs ih =>
    intro v w p ps2 hres hstep
    cases hq : jsStep v q with
    | none => rw [jsResolve, hq] at hres; exact absurd hres (by simp)
    | some nxt =>
      rw [jsResolve, hq] at hres
      rw [List.cons_append, jsResolve, hq]
      exact ih nxt w p ps2 hres hstep

theorem alookup_bumpCount_ne (m : List (String × Nat)) (k d : String)
    (h : d ≠ k) : alookup (bumpCount m k) d = alookup m d := by
  induction m with
  | nil =>
    simp only [bumpCount, alookup]
    rw [if_neg (fun he => h he.symm)]
  | cons kv t ih =>
    obtain ⟨k', v⟩ := kv
    by_cases hk : k' = k
    · subst hk
      simp only [bumpCount, if_pos, alookup]
      have hnd : ¬ (k' = d) := fun he => h he.symm
      rw [if_neg hnd, if_neg hnd]
    · simp only [bumpCount, hk, if_neg, not_false_iff, alookup]
      by_cases hd : k' = d
      · rw [if_pos hd, if_pos hd]
      · rw [if_neg hd, if_neg hd]
        exact ih

theorem skip_foldl_track_none :
    ∀ (hosts : List String) (m : List (String × Nat)) (d : String),
      memberStr skipDomains d = true → alookup m d = none →
      alookup (hosts.foldl (fun acc h => trackUnmatchedDomain h acc) m) d = none := by
  intro hosts
  induction hosts with
  | nil => intro m d _ hm; exact hm
  | cons h hs ih =>
    intro m d hd hm
    simp only [List.foldl_cons]
    apply ih _ d hd
    unfold trackUnmatchedDomain
    by_cases hskip : memberStr skipDomains (collapseHost h) = true
    · rw [if_pos hskip]; exact hm
    · rw [if_neg hskip]
      have hne : d ≠ collapseHost h := by
        intro he; rw [← he] at hskip; exact hskip hd
      rw [alookup_bumpCount_ne m (collapseHost h) d hne]
      exact hm

theorem alookup_bumpCount_self (m : List (String × Nat)) (k : String) :
    alookup (bumpCount m k) k = some ((alookup m k).getD 0 + 1) := by
  induction m with
  | nil => simp [bumpCount, alookup]
  | cons kv t ih =>
    obtain ⟨k', v⟩ := kv
    by_cases hk : k' = k
    · simp [bumpCount, alookup, hk]
    · simp only [bumpCount, hk, if_neg, not_false_iff, alookup]
      exact ih

theorem alookup_setEntry_self {α : Type} (u : List (String × α)) (k : String) (e : α) :
    alookup (setEntry u k e) k = some e := by
  induction u with
  | nil => simp [setEntry, alookup]
  | cons kv t ih =>
    obtain ⟨k', v⟩ := kv
    by_cases hk : k' = k
    · simp [setEntry, alookup, hk]
    · simp only [setEntry, hk, if_neg, not_false_iff, alookup]
      exact ih

theorem splitCh_ne_nil (c : Char) (l : List Char) : splitCh c l ≠ [] := by
  induction l with
  | nil => simp [splitCh]
  | cons x xs ih =>
    unfold splitCh
    by_cases hx : x = c
    · simp [hx]
    · simp only [hx, if_neg, not_false_iff]
      cases hsp : splitCh c xs with
      | nil => exact absurd hsp ih
      | cons hh tt => simp

theorem joinSep_splitCh (c : Char) (l : List Char) : joinSep c (splitCh c l) = l := by
  induction l with
  | nil => rfl
  | cons x xs ih =>
    unfold splitCh
    by_cases hx : x = c
    · subst hx
      simp only [if_pos]
      cases hsp : splitCh x xs with
      | nil => exact absurd hsp (splitCh_ne_nil x xs)
      | cons hh tt =>
        rw [hsp] at ih
        show joinSep x ([] :: hh :: tt) = x :: xs
        rw [joinSep, List.nil_append, ih]
    · simp only [hx, if_neg, not_false_iff]
      cases hsp : splitCh c xs with
      | nil => exact absurd hsp (splitCh_ne_nil c xs)
      | cons hh tt =>
        rw [hsp] at ih
        cases tt with
        | nil =>
          show joinSep c [x :: hh] = x :: xs
          rw [joinSep]
          have hx2 : hh = xs := by rw [← ih]; rfl
          rw [hx2]
        | cons h2 t2 =>
          show joinSep c ((x :: hh) :: h2 :: t2) = x :: xs
          rw [joinSep, List.cons_append]
          rw [joinSep] at ih
          rw [ih]

theorem splitCh_single (c : Char) (l : List Char) (h : ∀ x ∈ l, x ≠ c) :
    splitCh c l = [l] := by
  induction l with
  | nil => rfl
  | cons x xs ih =>
    have hx : x ≠ c := h x (by simp)
    have ih2 := ih fun y hy => h y (by simp [hy])
    unfold splitCh
    rw [ih2]
    simp [hx]

theorem ne_mk_of_digit_head (s : String) (hs : s.data.head? = some 'c')
    (ch : Char) (rest : List Char) (hd : ch.isDigit = true) :
    ¬ (s = String.mk (ch :: rest)) := by
  intro he
  rw [he] at hs
  simp only [List.head?] at hs
  have hc : ch = 'c' := by injection hs
  rw [hc] at hd
  exact absurd hd (by decide)

theorem ipv4_lastTwo_not_special (h : String) (hip : isIPv4 h = true) :
    memberStr specialTLDs
      (String.mk (joinSep '.' (takeRightN 2 (splitCh '.' h.data)))) = false := by
  unfold isIPv4 at hip
  cases h4 : splitCh '.' h.data with
  | nil => rw [h4] at hip; simp at hip
  | cons a t1 =>
    cases t1 with
    | nil => rw [h4] at hip; simp at hip
    | cons b t2 =>
      cases t2 with
      | nil => rw [h4] at hip; simp at hip
      | cons c0 t3 =>
        cases t3 with
        | nil => rw [h4] at hip; simp at hip
        | cons d0 t4 =>
          cases t4 with
          | cons e0 t5 => rw [h4] at hip; simp at hip
          | nil =>
            rw [h4] at hip
            cases c0 with
            | nil => simp at hip
            | cons ch ct =>
              simp only [Bool.and_eq_true, List.all_append, List.all_cons] at hip
              have hd : ch.isDigit = true := by tauto
              have g : ∀ s : String, s.data.head? = some 'c' →
                  ¬ (s = String.mk (ch :: (ct ++ '.' :: d0))) := fun s hs =>
                ne_mk_of_digit_head s hs ch (ct ++ '.' :: d0) hd
              show memberStr specialTLDs (String.mk (ch :: (ct ++ '.' :: d0))) = false
              simp only [memberStr, specialTLDs]
              rw [if_neg (g "co.uk" rfl), if_neg (g "com.au" rfl),
                  if_neg (g "co.nz" rfl), if_neg (g "co.jp" rfl),
                  if_neg (g "com.br" rfl)]

/-! ## Claims -/

/-- Claim C1 (code_bug): the spec's Segment end-to-end scenario does not
hold on the Go proxy.  `Source.Matches` reduces the URL host
`api.segment.io` to its base domain `segment.io` and compares it with
the seed domain string `api.segment.io` verbatim, so the seed Segment
source (and every other subdomain-keyed seed) can never match, and the
pipeline captures zero events.  The payload-parsing half of the claim is
intact: fed directly to `parsePayload` with the Segment seed, the
payload yields exactly the two claimed events `Viewed` and `Clicked`
with source id `segment` and user id `u1`. -/
theorem go_segment_scenario :
    ∀ (now : String) (genID : Nat → String),
      segmentSource.Matches segURL = false
      ∧ findMatchingSource GetDefaultSources segURL = none
      ∧ (parsePayload segPayload segmentSource segURL now genID).map
          (fun e => (e.event, e.source, e.userId)) =
        [("Viewed", "segment", "u1"), ("Clicked", "segment", "u1")] := by
  intro now genID
  refine ⟨rfl, rfl, rfl⟩

/-- Claim C5 (code_bug): in `matchGlob`, `*` does match any run of
non-slash characters within one segment, and an absent pattern matches
any path of the source's domain; but `**` does not match across
segments: `path.Match` collapses star runs and the fallback replaces
`**` by `*`, so the pattern `/a/**` fails on `/a/b/c`, contradicting
the claim and the code's own comment that `**` support means
"match any path". -/
theorem match_glob_doublestar_bug :
    matchGlob "/a/b/c" "/a/**" = false
    ∧ matchGlob "/a/bc" "/a/**" = true
    ∧ matchGlob "/v1/batch" "/v1/*" = true
    ∧ matchGlob "/v1/a/b" "/v1/*" = false
    ∧ heapSource.Matches "https://heapanalytics.com/any/deep/path" = true := by
  refine ⟨rfl, rfl, rfl, rfl, rfl⟩

/-- Claim C6 (confirmed): the event buffer is bounded by
`MaxEvents = 1000` under every sequence of appends, and an append to a
full buffer drops exactly the oldest event, keeping all others followed
by the new event. -/
theorem ring_buffer_cap :
    (∀ (buf es : List CapturedEvent), buf.length ≤ MaxEvents →
        (es.foldl appendEvent buf).length ≤ MaxEvents)
    ∧ (∀ (buf : List CapturedEvent) (e : CapturedEvent),
        buf.length = MaxEvents → appendEvent buf e = buf.drop 1 ++ [e]) := by
  constructor
  · intro buf es h
    exact foldl_appendEvent_le es buf h
  · intro buf e h
    unfold appendEvent
    have hgt : (buf ++ [e]).length > MaxEvents := by
      simp only [List.length_append, List.length_singleton, h]
      omega
    simp only [hgt, if_pos]
    cases buf with
    | nil => simp [MaxEvents] at h
    | cons b bs => simp

/-- Witness for C6 at concrete inputs: two appends to an empty buffer
stay within the cap, and an append to a full buffer of 1000 events
drops exactly the oldest. -/
theorem ring_buffer_cap_witness :
    (([sampleEvent, sampleEvent].foldl appendEvent []).length ≤ MaxEvents)
    ∧ appendEvent (List.replicate MaxEvents sampleEvent) sampleEvent =
        (List.replicate MaxEvents sampleEvent).drop 1 ++ [sampleEvent] :=
  ⟨ring_buffer_cap.1 [] [sampleEvent, sampleEvent] (by simp),
   ring_buffer_cap.2 (List.replicate MaxEvents sampleEvent) sampleEvent (by simp)⟩

/-- Claim C9 (confirmed): for every request whose action is none of
ping, startProxy, stopProxy, getStatus, `handleMessage` answers with
success false and the non-empty error `Unknown action: ` followed by
the action, and - being a total function over all action strings - it
never crashes, whatever the abstracted handler results are. -/
theorem unknown_action_total :
    ∀ (startR stopR statusR : Response) (msg : Message),
      msg.action ≠ "ping" → msg.action ≠ "startProxy" →
      msg.action ≠ "stopProxy" → msg.action ≠ "getStatus" →
      (handleMessage startR stopR statusR msg).success = false
      ∧ (handleMessage startR stopR statusR msg).error =
          "Unknown action: " ++ msg.action
      ∧ (handleMessage startR stopR statusR msg).error ≠ "" := by
  intro startR stopR statusR msg h1 h2 h3 h4
  unfold handleMessage
  rw [if_neg h1, if_neg h2, if_neg h3, if_neg h4]
  refine ⟨rfl, rfl, ?_⟩
  intro he
  have hl := congrArg String.length he
  rw [String.length_append] at hl
  have h16 : "Unknown action: ".length = 16 := rfl
  rw [h16] at hl
  simp at hl

/-- Counterexample for claim C2: on `shop.example.co.uk`, the Go
`extractBaseDomain` returns `co.uk`, whereas the claim (last three
labels under the multi-label suffix `co.uk`) requires
`example.co.uk`. -/
theorem base_domain_counterexample :
    extractBaseDomain "shop.example.co.uk" = "co.uk"
    ∧ claimBaseDomain "shop.example.co.uk" = "example.co.uk"
    ∧ ("co.uk" : String) ≠ "example.co.uk" :=
  ⟨rfl, rfl, by decide⟩

/-- Claim C2 (corrected): the claimed three-case behaviour (multi-label
public suffix → last three labels, IPv4 literal → host unchanged,
otherwise last two labels) is implemented only by the JS
`SourceConfig.extractBaseDomain`, shown here on lower-case, port-free
host strings (the JS code additionally strips a `:port` and lower-cases
first).  The Go `extractBaseDomain` has no suffix list and no IPv4
case: for every host it returns the last two labels of the lower-cased
host (the host itself when it has fewer than two labels). -/
theorem base_domain_amended :
    (∀ h : String, (∀ ch ∈ h.data, ch ≠ ':') →
        h.data.map Char.toLower = h.data →
        SourceConfig_extractBaseDomain h = claimBaseDomain h)
    ∧ (∀ h : String,
        extractBaseDomain h =
          String.mk (joinSep '.' (takeRightN 2 (splitCh '.' (lowerS h).data)))) := by
  constructor
  · intro h hcol hlow
    by_cases h0 : h = ""
    · subst h0; rfl
    · unfold SourceConfig_extractBaseDomain
      rw [if_neg h0]
      have hsp : splitCh ':' h.data = [h.data] :=
        splitCh_single ':' h.data fun x hx => hcol x hx
      rw [hsp]
      simp only [List.headD]
      have hmk : String.mk h.data = h := rfl
      simp only [hmk]
      have hls : lowerS h = h := by
        unfold lowerS
        rw [hlow]
      simp only [hls]
      unfold claimBaseDomain
      by_cases hip : isIPv4 h = true
      · rw [if_pos hip]
        rw [if_neg (by simp [ipv4_lastTwo_not_special h hip])]
        rw [if_pos hip]
      · rw [if_neg hip]
        by_cases hmem : (memberStr specialTLDs
            (String.mk (joinSep '.' (takeRightN 2 (splitCh '.' h.data)))) &&
            decide ((splitCh '.' h.data).length > 2)) = true
        · rw [if_pos hmem, if_pos hmem]
        · rw [if_neg hmem, if_neg hmem]
          rw [if_neg hip]
          by_cases hlen : (splitCh '.' h.data).length ≥ 2
          · rw [if_pos hlen]
          · rw [if_neg hlen]
            cases hsp2 : splitCh '.' h.data with
            | nil => exact absurd hsp2 (splitCh_ne_nil _ _)
            | cons a t =>
              cases t with
              | cons b t2 => rw [hsp2] at hlen; simp at hlen
              | nil =>
                have hj := joinSep_splitCh '.' h.data
                rw [hsp2] at hj
                show h = String.mk (joinSep '.' (takeRightN 2 [a]))
                have ht : takeRightN 2 [a] = [a] := rfl
                rw [ht]
                rw [show joinSep '.' [a] = a from rfl]
                rw [show joinSep '.' [a] = a from rfl] at hj
                rw [hj]
  · intro h
    unfold extractBaseDomain
    by_cases hlen : (splitCh '.' (lowerS h).data).length ≥ 2
    · rw [if_pos hlen]
    · rw [if_neg hlen]
      cases hsp : splitCh '.' (lowerS h).data with
      | nil => exact absurd hsp (splitCh_ne_nil _ _)
      | cons a t =>
        cases t with
        | cons b t2 => rw [hsp] at hlen; simp at hlen
        | nil =>
          have hj := joinSep_splitCh '.' (lowerS h).data
          rw [hsp] at hj
          show lowerS h = String.mk (joinSep '.' (takeRightN 2 [a]))
          have ht : takeRightN 2 [a] = [a] := rfl
          rw [ht]
          rw [show joinSep '.' [a] = a from rfl]
          rw [show joinSep '.' [a] = a from rfl] at hj
          rw [hj]

/-- Witness for C2 (amended): the JS function agrees with the spec's
three-case description on `a.example.co.uk`, and the Go function
returns the last two labels of `WWW.Example.com` lower-cased. -/
theorem base_domain_amended_witness :
    SourceConfig_extractBaseDomain "a.example.co.uk" = claimBaseDomain "a.example.co.uk"
    ∧ extractBaseDomain "WWW.Example.com" =
        String.mk (joinSep '.'
          (takeRightN 2 (splitCh '.' (lowerS "WWW.Example.com").data))) :=
  ⟨base_domain_amended.1 "a.example.co.uk" (by decide) (by decide),
   base_domain_amended.2 "WWW.Example.com"⟩

/-- Counterexample for claim C3: the URL `https://example.com/api/ping`
matches no source and its path contains none of the analytics-heuristic
substrings, yet the Go proxy records an unmatched-domain entry for it
(with count 1) - the claim says such URLs leave the map unchanged. -/
theorem unmatched_heuristic_counterexample :
    looksLikeAnalyticsEndpoint "https://example.com/api/ping" = false
    ∧ findMatchingSource GetDefaultSources "https://example.com/api/ping" = none
    ∧ trackUnmatchedDomain "example.com" [] = [("example.com", 1)]
    ∧ [("example.com", 1)] ≠ ([] : List (String × Nat)) :=
  ⟨rfl, rfl, rfl, by decide⟩

/-- Claim C3 (corrected): the analytics-path heuristic governs only the
Node config manager; the Go proxy records every unmatched POST.
Precisely: (a) in Go, any unmatched host outside the skip list gets its
last-two-labels key bumped regardless of path or payload; (b) in the
Node config manager, a URL failing the heuristic leaves the state
unchanged; (c) there, a URL passing the heuristic whose base domain is
non-empty and not owned by any registered source gets its count
incremented (with the entry created at count 1 on first sight). -/
theorem unmatched_tracking_amended :
    (∀ (host : String) (m : List (String × Nat)),
        memberStr skipDomains (collapseHost host) = false →
        alookup (trackUnmatchedDomain host m) (collapseHost host) =
          some ((alookup m (collapseHost host)).getD 0 + 1))
    ∧ (∀ (st : NodeState) (url payload : String) (now : Nat),
        looksLikeAnalyticsEndpoint url = false →
        trackUnmatchedRequest st url payload now = st)
    ∧ (∀ (st : NodeState) (url payload : String) (now : Nat),
        looksLikeAnalyticsEndpoint url = true →
        SourceConfig_extractBaseDomainFromUrl url ≠ "" →
        findSourceByDomain st (SourceConfig_extractBaseDomainFromUrl url) = none →
        countOf (trackUnmatchedRequest st url payload now)
            (SourceConfig_extractBaseDomainFromUrl url) =
          countOf st (SourceConfig_extractBaseDomainFromUrl url) + 1) := by
  refine ⟨?_, ?_, ?_⟩
  · intro host m h
    unfold trackUnmatchedDomain
    rw [if_neg (by simp [h])]
    exact alookup_bumpCount_self m (collapseHost host)
  · intro st url payload now h
    unfold trackUnmatchedRequest
    rw [h]
    simp
  · intro st url payload now h1 h2 h3
    unfold trackUnmatchedRequest
    rw [h1]
    simp only [Bool.not_true]
    rw [if_neg (by simp)]
    rw [h3]
    simp only [Option.isSome_none, Bool.or_false]
    rw [if_neg (by simp [h2])]
    cases halu : alookup st.unmatched (SourceConfig_extractBaseDomainFromUrl url) with
    | none =>
      unfold countOf
      simp only [halu]
      rw [alookup_setEntry_self]
    | some e =>
      unfold countOf
      simp only [halu]
      rw [alookup_setEntry_self]

/-- Witness for C3 (amended) at concrete inputs: the Go proxy bumps
`example.com` for a non-heuristic host; the Node manager ignores a
non-heuristic URL and increments `example.com` for a heuristic one. -/
theorem unmatched_tracking_amended_witness :
    alookup (trackUnmatchedDomain "api.example.com" []) "example.com" = some 1
    ∧ trackUnmatchedRequest ⟨[], []⟩ "https://example.com/api/ping" "p" 5 = ⟨[], []⟩
    ∧ countOf (trackUnmatchedRequest ⟨[], []⟩ "https://example.com/v1/track" "p" 5)
        "example.com" = countOf ⟨[], []⟩ "example.com" + 1 :=
  ⟨unmatched_tracking_amended.1 "api.example.com" [] (by decide),
   unmatched_tracking_amended.2.1 ⟨[], []⟩ "https://example.com/api/ping" "p" 5 rfl,
   unmatched_tracking_amended.2.2 ⟨[], []⟩ "https://example.com/v1/track" "p" 5
     rfl (by decide) rfl⟩

/-- Counterexample for claim C4: for the payload with a single key
`records` bound to a one-element array and a source without a batch
path, the claim predicts the extractor uses the `records` array; the Go
`extractEvents` does not probe `records` and returns no events.
Additionally, the JS `findEventArray` does not probe `hits`, which the
claim lists. -/
theorem extract_events_counterexample :
    extractEvents (JValue.obj [("records", JValue.arr [JValue.str "R"])])
        mixpanelSource = []
    ∧ ([] : List JValue) ≠ [JValue.str "R"]
    ∧ findEventArray (JValue.obj [("hits", JValue.arr [JValue.str "H"])]) = none :=
  ⟨rfl, by simp, rfl⟩

/-- Claim C4 (corrected): for sources without a batch path, the Go
extractor probes `batch, events, data, items, hits, b` in that order
(`records` is absent, so `hits` wins over `records`; `items` still
precedes `hits`); a top-level JSON array yields no batch in Go and the
whole payload becomes a single captured event, as does a payload in
which no array is found; the JS parser probes
`batch, events, data, items, records, messages` and does use a
top-level array as the event list. -/
theorem extract_events_amended :
    ∀ src : Source, src.batchPath = "" → ∀ xs ys : List JValue,
      extractEvents (JValue.obj [("records", JValue.arr xs),
          ("hits", JValue.arr ys)]) src = ys
      ∧ extractEvents (JValue.obj [("items", JValue.arr xs),
          ("hits", JValue.arr ys)]) src = xs
      ∧ extractEvents (JValue.arr xs) src = []
      ∧ (∀ (url now : String) (genID : Nat → String) (x : JValue) (t : List JValue),
          (parsePayload (JValue.arr (x :: t)) src url now genID).length = 1)
      ∧ (∀ (url now : String) (genID : Nat → String),
          (parsePayload (JValue.obj [("event", JValue.str "x")]) src url now
            genID).length = 1)
      ∧ findEventArray (JValue.obj [("records", JValue.arr xs)]) = some xs
      ∧ findEventArray (JValue.arr xs) = some xs := by
  intro src hbp xs ys
  obtain ⟨i, n, ic, co, e, d, up, fm, enp, bp⟩ := src
  simp only at hbp
  subst hbp
  exact ⟨rfl, rfl, rfl, fun _ _ _ _ _ => rfl, fun _ _ _ => rfl, rfl, rfl⟩

/-- Witness for C4 (amended) at the seed Mixpanel source (no batch
path) and concrete arrays. -/
theorem extract_events_amended_witness :
    extractEvents (JValue.obj [("records", JValue.arr [JValue.str "A"]),
        ("hits", JValue.arr [JValue.str "B"])]) mixpanelSource = [JValue.str "B"]
    ∧ findEventArray (JValue.arr [JValue.str "A"]) = some [JValue.str "A"] :=
  ⟨(extract_events_amended mixpanelSource rfl [JValue.str "A"] [JValue.str "B"]).1,
   (extract_events_amended mixpanelSource rfl [JValue.str "A"]
      [JValue.str "B"]).2.2.2.2.2.2⟩

/-- Counterexample for claim C8: at the numeric input 0 (falsy in JS),
`normalizeTimestamp` returns the current time, not the ISO rendering of
0 milliseconds. -/
theorem normalize_timestamp_zero_counterexample :
    normalizeTimestamp (fun s => s) "2024-06-01T12:00:00.000Z" (TSValue.num 0) =
      "2024-06-01T12:00:00.000Z"
    ∧ toISOString (0 * 1000) = "1970-01-01T00:00:00.000Z"
    ∧ ("2024-06-01T12:00:00.000Z" : String) ≠ "1970-01-01T00:00:00.000Z" :=
  ⟨rfl, rfl, by decide⟩

/-- Claim C8 (corrected): for every nonzero numeric timestamp
`t < 10^10` (numbers modelled as integers), normalization produces
exactly the ISO-8601 rendering of the instant `t * 1000` milliseconds
since the epoch; the zero timestamp is excluded because JS treats it as
falsy and substitutes the current time. -/
theorem normalize_timestamp_amended :
    ∀ (parseDate : String → String) (nowISO : String) (t : Int),
      t ≠ 0 → t < 10000000000 →
      normalizeTimestamp parseDate nowISO (TSValue.num t) = toISOString (t * 1000) := by
  intro parseDate nowISO t h0 hlt
  show (if t = 0 then nowISO
        else toISOString (if t < 10000000000 then t * 1000 else t)) =
      toISOString (t * 1000)
  rw [if_neg h0, if_pos hlt]

/-- Witness for C8 (amended) at the Unix-seconds timestamp of
2024-01-01T00:00:00Z. -/
theorem normalize_timestamp_amended_witness :
    normalizeTimestamp (fun s => s) "X" (TSValue.num 1704067200) =
      toISOString (1704067200 * 1000) :=
  normalize_timestamp_amended (fun s => s) "X" 1704067200 (by decide) (by decide)

/-- Claim C7 (confirmed): both path resolvers return the string `x` for
the expression `events[0].name` against the scenario value, and both
return "no value" (`none`) whenever some step of the path misses -
absent key, out-of-range index, or a non-object/non-array intermediate
all make `stepPart` / `jsStep` yield `none`, which the resolver
propagates to a `none` overall result.  Both resolvers are total Lean
functions, so no input can make them raise. -/
theorem path_resolver_ok :
    getNestedValue resolverData "events[0].name" = some (JValue.str "x")
    ∧ AnalyticsParser_getNestedValue (JValue.obj resolverData) "events[0].name" =
        some (JValue.str "x")
    ∧ (∀ (data : List (String × JValue)) (path : String)
         (ps1 ps2 : List PathPart) (p : PathPart) (w : JValue),
         parseJSONPath path = ps1 ++ p :: ps2 →
         resolveParts (JValue.obj data) ps1 = some w →
         stepPart w p = none →
         getNestedValue data path = none)
    ∧ (∀ (v : JValue) (parts1 parts2 : List String) (part : String) (w : JValue),
         jsResolve v parts1 = some w → jsStep w part = none →
         jsResolve v (parts1 ++ part :: parts2) = none) := by
  refine ⟨rfl, rfl, ?_, ?_⟩
  · intro data path ps1 ps2 p w hparse hres hstep
    unfold getNestedValue
    rw [hparse]
    exact resolveParts_append_none ps1 (JValue.obj data) w p ps2 hres hstep
  · intro v parts1 parts2 part w hres hstep
    exact jsResolve_append_none parts1 v w part parts2 hres hstep

/-- Witness for C7: the missing key `oops` after a resolved prefix makes
both resolvers answer `none`. -/
theorem path_resolver_ok_witness :
    getNestedValue resolverData "events[0].oops" = none
    ∧ jsResolve (JValue.obj resolverData) (["events", "0"] ++ "oops" :: []) = none :=
  ⟨path_resolver_ok.2.2.1 resolverData "events[0].oops"
      [⟨"events", 0⟩] [] ⟨"oops", -1⟩ (JValue.obj [("name", JValue.str "x")])
      rfl rfl rfl,
   path_resolver_ok.2.2.2 (JValue.obj resolverData) ["events", "0"] [] "oops"
      (JValue.obj [("name", JValue.str "x")]) rfl rfl⟩

/-- Claim C10 (confirmed): in the Go proxy, a POST whose host's last two
labels are one of the skip domains leaves the unmatched-domain map
unchanged - `trackUnmatchedDomain` never even receives the path or
payload - and after any sequence of unmatched requests starting from the
empty map, no skip domain is a key of the map, hence none can appear in
the `GET /unmatched` or `GET /events` output, which serialize exactly
this map. -/
theorem skip_domains_never_tracked :
    (∀ (host : String) (m : List (String × Nat)),
        memberStr skipDomains (collapseHost host) = true →
        trackUnmatchedDomain host m = m)
    ∧ (∀ (hosts : List String) (d : String),
        memberStr skipDomains d = true →
        alookup (hosts.foldl (fun acc h => trackUnmatchedDomain h acc) []) d = none) := by
  constructor
  · intro host m h
    unfold trackUnmatchedDomain
    rw [if_pos h]
  · intro hosts d hd
    exact skip_foldl_track_none hosts [] d hd rfl

/-- Witness for C10: `www.google.com` leaves a concrete map unchanged,
and `google.com` is absent after a fold over a mixed host list. -/
theorem skip_domains_never_tracked_witness :
    trackUnmatchedDomain "www.google.com" [("example.com", 2)] = [("example.com", 2)]
    ∧ alookup ((["api.gstatic.com", "www.example.com", "www.google.com"]).foldl
        (fun acc h => trackUnmatchedDomain h acc) []) "google.com" = none :=
  ⟨skip_domains_never_tracked.1 "www.google.com" [("example.com", 2)] (by decide),
   skip_domains_never_tracked.2 ["api.gstatic.com", "www.example.com", "www.google.com"]
      "google.com" (by decide)⟩

/-- Witness for C9: the unknown action `fooAction` draws the expected
failure response. -/
theorem unknown_action_total_witness :
    (handleMessage { success := true } { success := true } { success := true }
        ⟨"fooAction"⟩).success = false
    ∧ (handleMessage { success := true } { success := true } { success := true }
        ⟨"fooAction"⟩).error = "Unknown action: " ++ "fooAction"
    ∧ (handleMessage { success := true } { success := true } { success := true }
        ⟨"fooAction"⟩).error ≠ "" :=
  unknown_action_total { success := true } { success := true } { success := true }
    ⟨"fooAction"⟩ (by decide) (by decide) (by decide) (by decide)

end Loggy
